import Mathlib

/-!
Shallow embedding of the Stellara staking contract
(`Contracts/contracts/staking/src/staking.rs`).

Rust `i128` values are modelled as `Int` together with explicit range
checks: `checked_add` / `checked_sub` / `checked_mul` return `none` where
the Rust code would hit a fatal abort (`.expect(...)` panic).  Rust `u64`
and `u32` values are modelled as `Nat`; `saturating_sub` on `u64` is `Nat`
subtraction.  Rust `i128` division truncates toward zero, which is
`Int.tdiv`; division by zero is a panic in Rust and is modelled explicitly
as a fatal abort (`none`).
-/

/-- Largest `i128` value, `2^127 - 1`. -/
def I128_MAX : Int := 2 ^ 127 - 1

/-- Smallest `i128` value, `-2^127`. -/
def I128_MIN : Int := -(2 ^ 127)

/-- Whether an integer is representable as an `i128`. -/
def fitsI128 (x : Int) : Bool := decide (I128_MIN ≤ x) && decide (x ≤ I128_MAX)

/-- Rust `i128::checked_add`: `none` models the overflow panic of
`.checked_add(..).expect(..)`. -/
def checked_add (a b : Int) : Option Int :=
  if fitsI128 (a + b) then some (a + b) else none

/-- Rust `i128::checked_sub`. -/
def checked_sub (a b : Int) : Option Int :=
  if fitsI128 (a - b) then some (a - b) else none

/-- Rust `i128::checked_mul`. -/
def checked_mul (a b : Int) : Option Int :=
  if fitsI128 (a * b) then some (a * b) else none

/-- `StakingPosition` from staking.rs.  The `user : Address` field is
modelled as a `Nat` identity. -/
structure StakingPosition where
  user : Nat
  amount : Int
  start_time : Nat
  last_reward_time : Nat
  reward_multiplier : Nat
  lock_period : Nat
  has_vesting : Bool
  vesting_total_periods : Nat
  vesting_current_period : Nat
  vesting_period_duration : Nat
  vesting_cliff_percentage : Nat
deriving DecidableEq, Repr

/-- `StakingPool` from staking.rs; the token `Address` is a `Nat`. -/
structure StakingPool where
  token : Nat
  total_staked : Int
  reward_rate : Int
  bonus_multiplier : Nat
  min_stake : Int
  max_stake : Int
  emergency_withdrawal_fee : Nat
deriving DecidableEq, Repr

/-- `RewardCalculation` from staking.rs (ephemeral output of the
reward engine). -/
structure RewardCalculation where
  base_rewards : Int
  bonus_rewards : Int
  total_rewards : Int
  vesting_amount : Int
  claimable_amount : Int
deriving DecidableEq, Repr

/-- `StakingError` from staking.rs. -/
inductive StakingError where
  | NotInitialized
  | Unauthorized
  | InsufficientBalance
  | InvalidAmount
  | InvalidLockPeriod
  | PositionNotFound
  | AlreadyStaked
  | NotStaked
  | LockPeriodNotExpired
  | EmergencyMode
  | InvalidPoolConfig
  | RewardCalculationFailed
deriving DecidableEq, Repr

/-- `get_reward_multiplier` from staking.rs: exact-match table from a lock
period in seconds to a multiplier, `0` meaning invalid. -/
def get_reward_multiplier (lock_period : Nat) : Nat :=
  if lock_period = 30 * 24 * 60 * 60 then 100
  else if lock_period = 90 * 24 * 60 * 60 then 150
  else if lock_period = 180 * 24 * 60 * 60 then 200
  else if lock_period = 365 * 24 * 60 * 60 then 300
  else 0

/-- `calculate_rewards` from staking.rs.  `none` models a fatal abort:
an `i128` overflow at a `checked_*` step, or the `u64` division by zero
`total_time_staked / vesting_period_duration` when
`vesting_period_duration = 0`.  The final division
`/ max_periods as i128` is only reached when `periods_completed <
max_periods`, hence with `max_periods > 0`, so it never divides by zero;
it is written with `Int.tdiv`, the Rust `i128` division. -/
def calculate_rewards (position : StakingPosition) (pool : StakingPool)
    (current_time : Nat) : Option RewardCalculation := do
  let time_since_last_reward : Nat := current_time - position.last_reward_time
  let total_time_staked : Nat := current_time - position.start_time
  let m1 ← checked_mul pool.reward_rate position.amount
  let m2 ← checked_mul m1 (Int.ofNat time_since_last_reward)
  let base_rewards := Int.tdiv m2 1000000000
  let bonus_multiplier : Int := Int.ofNat position.reward_multiplier
  let m3 ← checked_mul base_rewards (bonus_multiplier - 100)
  let bonus_rewards := Int.tdiv m3 100
  let total_rewards ← checked_add base_rewards bonus_rewards
  let vesting_amount ←
    if position.has_vesting then do
      if position.vesting_period_duration = 0 then
        none
      else
        let periods_completed := total_time_staked / position.vesting_period_duration
        let max_periods := position.vesting_total_periods
        if periods_completed ≥ max_periods then
          pure total_rewards
        else do
          let cliff_amount ←
            if periods_completed = 0 then
              pure (0 : Int)
            else do
              let c ← checked_mul total_rewards (Int.ofNat position.vesting_cliff_percentage)
              pure (Int.tdiv c 10000)
          let vested_periods := min periods_completed max_periods
          let v ← checked_mul total_rewards (Int.ofNat vested_periods)
          let vested_amount := Int.tdiv v (Int.ofNat max_periods)
          pure (max cliff_amount vested_amount)
    else
      pure total_rewards
  pure { base_rewards := base_rewards, bonus_rewards := bonus_rewards,
         total_rewards := total_rewards, vesting_amount := vesting_amount,
         claimable_amount := vesting_amount }

set_option maxRecDepth 16384

example :
    calculate_rewards
      { user := 7, amount := 1000, start_time := 0, last_reward_time := 0,
        reward_multiplier := 100, lock_period := 2592000, has_vesting := false,
        vesting_total_periods := 0, vesting_current_period := 0,
        vesting_period_duration := 0, vesting_cliff_percentage := 0 }
      { token := 0, total_staked := 1000, reward_rate := 1000000000,
        bonus_multiplier := 0, min_stake := 100, max_stake := 1000000,
        emergency_withdrawal_fee := 500 }
      1000 =
    some { base_rewards := 1000000, bonus_rewards := 0, total_rewards := 1000000,
           vesting_amount := 1000000, claimable_amount := 1000000 } := by
  rfl

/-!
Lifecycle state machine.  Persistent storage is a `State`; the ledger
timestamp, the external token balances and the contract address form a
`Ctx`.  Each public entry point is a pure function from `Ctx × State` and
its arguments to an `Outcome` together with the list of effects (token
transfers and storage writes) it issues, in source order.  Authorization
(`require_auth`) and event publication are external collaborators and are
not modelled.
-/

/-- Outcome of one invocation: an `Ok` value, a recoverable
`StakingError`, or a fatal abort (Rust panic from `.expect` / `.unwrap` /
division by zero). -/
inductive Outcome (α : Type) where
  | ok (a : α)
  | err (e : StakingError)
  | fatal
deriving DecidableEq, Repr

/-- An externally visible effect, in the order the Rust code issues it:
a token transfer or a persistent storage write. -/
inductive Eff where
  | transfer (src dst : Nat) (amount : Int)
  | setPool (p : StakingPool)
  | setPosition (user : Nat) (p : StakingPosition)
  | removePosition (user : Nat)
  | setAdmin (a : Nat)
  | setEmergency (b : Bool)
deriving DecidableEq, Repr

/-- Persistent contract storage: `Admin`, `Pool`, `EmergencyFlag` keys
(each possibly unset) and the keyed position store, as an association
list over user identities. -/
structure State where
  admin : Option Nat
  pool : Option StakingPool
  emergency : Option Bool
  positions : List (Nat × StakingPosition)
deriving DecidableEq, Repr

/-- The freshly deployed contract: nothing stored. -/
def State.empty : State := { admin := none, pool := none, emergency := none, positions := [] }

/-- Invocation context: ledger timestamp, external token balances, and
the contract address. -/
structure Ctx where
  now : Nat
  balanceOf : Nat → Int
  contractAddr : Nat

/-- `storage::get_staking_position`: first entry for the user, if any. -/
def lookupPos : List (Nat × StakingPosition) → Nat → Option StakingPosition
  | [], _ => none
  | (v, q) :: rest, u => if v = u then some q else lookupPos rest u

/-- `storage::set_staking_position`: overwrite the entry for the user, or
append one. -/
def setPos : List (Nat × StakingPosition) → Nat → StakingPosition → List (Nat × StakingPosition)
  | [], u, p => [(u, p)]
  | (v, q) :: rest, u, p => if v = u then (u, p) :: rest else (v, q) :: setPos rest u p

/-- `storage::remove_staking_position`: drop the entries for the user. -/
def removePos : List (Nat × StakingPosition) → Nat → List (Nat × StakingPosition)
  | [], _ => []
  | (v, q) :: rest, u => if v = u then removePos rest u else (v, q) :: removePos rest u

/-- `storage::get_emergency_mode`: `unwrap_or(false)`. -/
def State.emergencyMode (s : State) : Bool := s.emergency.getD false

/-- Apply one storage effect to the state (transfers do not touch
contract storage). -/
def applyEff (s : State) : Eff → State
  | .transfer _ _ _ => s
  | .setPool p => { s with pool := some p }
  | .setPosition u p => { s with positions := setPos s.positions u p }
  | .removePosition u => { s with positions := removePos s.positions u }
  | .setAdmin a => { s with admin := some a }
  | .setEmergency b => { s with emergency := some b }

/-- Apply a list of effects left to right. -/
def applyEffs (s : State) (effs : List Eff) : State := List.foldl applyEff s effs

/-- `initialize` from staking.rs.  Note the code returns
`NotInitialized` when an admin is already set (its re-initialization
guard), and fixes the withdrawal fee at 500 bps. -/
def initializeContract (s : State) (admin token : Nat) (reward_rate : Int)
    (bonus_multiplier : Nat) (min_stake max_stake : Int) :
    Outcome Unit × List Eff :=
  if s.admin.isSome then (.err .NotInitialized, [])
  else if reward_rate < 0 then (.err .InvalidPoolConfig, [])
  else if min_stake < 0 ∨ max_stake ≤ min_stake then (.err .InvalidPoolConfig, [])
  else
    let pool : StakingPool :=
      { token := token, total_staked := 0, reward_rate := reward_rate,
        bonus_multiplier := bonus_multiplier, min_stake := min_stake,
        max_stake := max_stake, emergency_withdrawal_fee := 500 }
    (.ok (), [.setAdmin admin, .setPool pool, .setEmergency false])

/-- The vesting tuple built inside `stake`:
`(has_vesting, total_periods, current_period, period_duration,
cliff_percentage)`.  `lock_period / periods` is a `u64` division, so
`periods = 0` is a fatal abort (`none`). -/
def vestingFields (lock_period : Nat) : Option Nat →
    Option (Bool × Nat × Nat × Nat × Nat)
  | some periods =>
      if periods = 0 then none
      else some (true, periods, 0, lock_period / periods, 2500)
  | none => some (false, 0, 0, 0, 0)

/-- `stake` from staking.rs.  Effects appear in source order: the debit
transfer is issued before the `total_staked` overflow check, so a fatal
overflow there leaves the transfer already issued. -/
def stake (ctx : Ctx) (s : State) (user : Nat) (amount : Int)
    (lock_period : Nat) (vesting_periods : Option Nat) :
    Outcome Unit × List Eff :=
  match s.pool with
  | none => (.fatal, [])
  | some pool =>
    if s.emergencyMode then (.err .EmergencyMode, [])
    else if amount < pool.min_stake ∨ amount > pool.max_stake then (.err .InvalidAmount, [])
    else
      let reward_multiplier := get_reward_multiplier lock_period
      if reward_multiplier = 0 then (.err .InvalidLockPeriod, [])
      else if (lookupPos s.positions user).isSome then (.err .AlreadyStaked, [])
      else
        match vestingFields lock_period vesting_periods with
        | none => (.fatal, [])
        | some (hv, vtp, vcp, vpd, vcliff) =>
          if ctx.balanceOf user < amount then (.err .InsufficientBalance, [])
          else
            let t := Eff.transfer user ctx.contractAddr amount
            match checked_add pool.total_staked amount with
            | none => (.fatal, [t])
            | some newTotal =>
              let position : StakingPosition :=
                { user := user, amount := amount, start_time := ctx.now,
                  last_reward_time := ctx.now,
                  reward_multiplier := reward_multiplier,
                  lock_period := lock_period, has_vesting := hv,
                  vesting_total_periods := vtp, vesting_current_period := vcp,
                  vesting_period_duration := vpd,
                  vesting_cliff_percentage := vcliff }
              (.ok (), [t, .setPool { pool with total_staked := newTotal },
                        .setPosition user position])

/-- `unstake` from staking.rs.  The credit transfer is issued before the
`total_staked` underflow check; the fee branch repeats the guard
condition that already returned `LockPeriodNotExpired`. -/
def unstake (ctx : Ctx) (s : State) (user : Nat) : Outcome Int × List Eff :=
  match s.pool with
  | none => (.fatal, [])
  | some pool =>
    match lookupPos s.positions user with
    | none => (.err .NotStaked, [])
    | some position =>
      let current_time := ctx.now
      let time_staked := current_time - position.start_time
      if time_staked < position.lock_period ∧ s.emergencyMode = false then
        (.err .LockPeriodNotExpired, [])
      else
        match calculate_rewards position pool current_time with
        | none => (.fatal, [])
        | some rewards =>
          let feeOpt : Option Int :=
            if time_staked < position.lock_period ∧ s.emergencyMode = false then
              (checked_mul position.amount (Int.ofNat pool.emergency_withdrawal_fee)).map
                (fun x => Int.tdiv x 10000)
            else some 0
          match feeOpt with
          | none => (.fatal, [])
          | some fee =>
            match checked_add position.amount rewards.claimable_amount with
            | none => (.fatal, [])
            | some pa =>
              match checked_sub pa fee with
              | none => (.fatal, [])
              | some total_amount =>
                let t := Eff.transfer ctx.contractAddr user total_amount
                match checked_sub pool.total_staked position.amount with
                | none => (.fatal, [t])
                | some newTotal =>
                  (.ok rewards.claimable_amount,
                   [t, .setPool { pool with total_staked := newTotal },
                    .removePosition user])

/-- `claim_rewards` from staking.rs.  When `claimable_amount = 0` it
returns `Ok 0` before issuing any transfer or write; otherwise it
credits the user, then updates `last_reward_time` and, when applicable,
bumps `vesting_current_period` by one. -/
def claim_rewards (ctx : Ctx) (s : State) (user : Nat) : Outcome Int × List Eff :=
  match s.pool with
  | none => (.fatal, [])
  | some pool =>
    match lookupPos s.positions user with
    | none => (.err .NotStaked, [])
    | some position =>
      match calculate_rewards position pool ctx.now with
      | none => (.fatal, [])
      | some rewards =>
        if rewards.claimable_amount = 0 then (.ok 0, [])
        else
          let t := Eff.transfer ctx.contractAddr user rewards.claimable_amount
          let p1 := { position with last_reward_time := ctx.now }
          let p2 :=
            if p1.has_vesting ∧ p1.vesting_current_period < p1.vesting_total_periods then
              { p1 with vesting_current_period := p1.vesting_current_period + 1 }
            else p1
          (.ok rewards.claimable_amount, [t, .setPosition user p2])

/-- `update_pool` from staking.rs (admin identity checked against
storage; `get_admin().unwrap()` is a fatal abort when unset). -/
def update_pool (s : State) (admin : Nat) (reward_rate : Option Int)
    (bonus_multiplier : Option Nat) : Outcome Unit × List Eff :=
  match s.admin with
  | none => (.fatal, [])
  | some stored_admin =>
    if admin ≠ stored_admin then (.err .Unauthorized, [])
    else
      match s.pool with
      | none => (.fatal, [])
      | some pool =>
        match reward_rate with
        | some new_rate =>
          if new_rate < 0 then (.err .InvalidPoolConfig, [])
          else
            let pool1 := { pool with reward_rate := new_rate }
            let pool2 :=
              match bonus_multiplier with
              | some m => { pool1 with bonus_multiplier := m }
              | none => pool1
            (.ok (), [.setPool pool2])
        | none =>
          let pool2 :=
            match bonus_multiplier with
            | some m => { pool with bonus_multiplier := m }
            | none => pool
          (.ok (), [.setPool pool2])

/-- `set_emergency_mode` from staking.rs. -/
def set_emergency_mode (s : State) (admin : Nat) (enabled : Bool) :
    Outcome Unit × List Eff :=
  match s.admin with
  | none => (.fatal, [])
  | some stored_admin =>
    if admin ≠ stored_admin then (.err .Unauthorized, [])
    else (.ok (), [.setEmergency enabled])

/-- `get_pending_rewards` from staking.rs: a pure read projection. -/
def get_pending_rewards (ctx : Ctx) (s : State) (user : Nat) :
    Outcome RewardCalculation :=
  match s.pool with
  | none => .fatal
  | some pool =>
    match lookupPos s.positions user with
    | none => .err .NotStaked
    | some position =>
      match calculate_rewards position pool ctx.now with
      | none => .fatal
      | some rewards => .ok rewards

/-!
Concrete fixtures used by witnesses and counterexamples.
-/

/-- A pool as produced by `initialize` with rate `1e9`, bounds
`[100, 1000000]`. -/
def pool0 : StakingPool :=
  { token := 0, total_staked := 0, reward_rate := 1000000000,
    bonus_multiplier := 0, min_stake := 100, max_stake := 1000000,
    emergency_withdrawal_fee := 500 }

/-- An initialized state with `pool0`, admin `9`, emergency off and no
positions. -/
def sInit : State :=
  { admin := some 9, pool := some pool0, emergency := some false, positions := [] }

/-- A context at ledger time `t`; every user holds `1000000` tokens and
the contract address is `0`. -/
def ctxAt (t : Nat) : Ctx :=
  { now := t, balanceOf := fun _ => 1000000, contractAddr := 0 }

/-- Helper: a successful `checked_add` yields the exact sum. -/
theorem checked_add_eq {a b c : Int} (h : checked_add a b = some c) :
    c = a + b ∧ fitsI128 (a + b) = true := by
  unfold checked_add at h
  by_cases hf : fitsI128 (a + b)
  · simp [hf] at h
    exact ⟨h.symm, hf⟩
  · simp [hf] at h

/-- Helper: a successful `checked_sub` yields the exact difference. -/
theorem checked_sub_eq {a b c : Int} (h : checked_sub a b = some c) :
    c = a - b ∧ fitsI128 (a - b) = true := by
  unfold checked_sub at h
  by_cases hf : fitsI128 (a - b)
  · simp [hf] at h
    exact ⟨h.symm, hf⟩
  · simp [hf] at h

/-- Helper: subtracting zero from a representable value succeeds. -/
theorem checked_sub_zero {a : Int} (h : fitsI128 a = true) :
    checked_sub a 0 = some a := by
  unfold checked_sub
  simp [h]

/-- A position whose vesting fields are inconsistent: vesting enabled
with `vesting_period_duration = 0` (as produced by `stake` when
`vesting_periods = Some n` with `n > lock_period`). -/
def posV0 : StakingPosition :=
  { user := 1, amount := 1000, start_time := 0, last_reward_time := 0,
    reward_multiplier := 100, lock_period := 2592000, has_vesting := true,
    vesting_total_periods := 4, vesting_current_period := 0,
    vesting_period_duration := 0, vesting_cliff_percentage := 2500 }

/-- Claim C9: the vesting divisions are unguarded at the public
interface.  (1) `stake` with `vesting_periods = Some 0`, once all
recoverable validation passes, hits the `u64` division
`lock_period / 0` and aborts fatally (no recoverable `StakingError`).
(2) For a position with vesting enabled and
`vesting_period_duration = 0`, `calculate_rewards` always aborts
fatally, so every subsequent reward computation does.  (3) A successful
`stake` with `vesting_periods = Some n` where `n > lock_period` stores a
position with `has_vesting = true` and `vesting_period_duration = 0`. -/
theorem vesting_divisions_unguarded :
    (∀ (ctx : Ctx) (s : State) (pool : StakingPool) (user : Nat) (amount : Int) (lock_period : Nat),
      s.pool = some pool →
      s.emergencyMode = false →
      pool.min_stake ≤ amount →
      amount ≤ pool.max_stake →
      get_reward_multiplier lock_period ≠ 0 →
      lookupPos s.positions user = none →
      stake ctx s user amount lock_period (some 0) = (.fatal, [])) ∧
    (∀ (p : StakingPosition) (pool : StakingPool) (t : Nat),
      p.has_vesting = true → p.vesting_period_duration = 0 →
      calculate_rewards p pool t = none) ∧
    (∀ (ctx : Ctx) (s : State) (user : Nat) (amount : Int) (lock_period n : Nat),
      lock_period < n →
      (stake ctx s user amount lock_period (some n)).1 = .ok () →
      ∃ pool1 pos, (stake ctx s user amount lock_period (some n)).2 =
          [Eff.transfer user ctx.contractAddr amount, Eff.setPool pool1,
           Eff.setPosition user pos] ∧
        pos.has_vesting = true ∧ pos.vesting_period_duration = 0) := by
  refine ⟨?_, ?_, ?_⟩
  · intro ctx s pool user amount lock hpool hem hmin hmax hmult hpos
    have h1 : ¬(amount < pool.min_stake ∨ amount > pool.max_stake) := by
      push_neg
      exact ⟨hmin, hmax⟩
    simp [stake, hpool, hem, h1, hmult, hpos, vestingFields]
  · intro p pool t hv hd
    simp only [calculate_rewards, hv, hd]
    cases checked_mul pool.reward_rate p.amount <;> simp
  · intro ctx s user amount lock n hlt hok
    have hn : ¬ n = 0 := by omega
    have hdiv : lock / n = 0 := Nat.div_eq_of_lt hlt
    cases hpool : s.pool with
    | none => simp [stake, hpool] at hok
    | some pool =>
      by_cases hem : s.emergencyMode
      · simp [stake, hpool, hem] at hok
      · by_cases hamt : amount < pool.min_stake ∨ amount > pool.max_stake
        · simp [stake, hpool, hem, hamt] at hok
        · by_cases hmult : get_reward_multiplier lock = 0
          · simp [stake, hpool, hem, hamt, hmult] at hok
          · by_cases hpos : (lookupPos s.positions user).isSome
            · simp [stake, hpool, hem, hamt, hmult, hpos] at hok
            · by_cases hbal : ctx.balanceOf user < amount
              · simp [stake, hpool, hem, hamt, hmult, hpos, vestingFields, hn, hbal] at hok
              · cases hadd : checked_add pool.total_staked amount with
                | none =>
                  simp [stake, hpool, hem, hamt, hmult, hpos, vestingFields, hn, hbal, hadd] at hok
                | some newTotal =>
                  refine ⟨{ pool with total_staked := newTotal },
                    { user := user, amount := amount, start_time := ctx.now,
                      last_reward_time := ctx.now,
                      reward_multiplier := get_reward_multiplier lock,
                      lock_period := lock, has_vesting := true,
                      vesting_total_periods := n, vesting_current_period := 0,
                      vesting_period_duration := 0,
                      vesting_cliff_percentage := 2500 }, ?_, rfl, rfl⟩
                  simp [stake, hpool, hem, hamt, hmult, hpos, vestingFields, hn, hbal, hadd, hdiv]

/-- Witness for C9 at concrete inputs: staking `1000` for the 30-day
lock with `Some 0` vesting periods aborts fatally with no effects, and
the reward engine aborts on `posV0`. -/
theorem vesting_divisions_unguarded_witness :
    stake (ctxAt 0) sInit 1 1000 2592000 (some 0) = (.fatal, []) ∧
    calculate_rewards posV0 pool0 5 = none :=
  ⟨vesting_divisions_unguarded.1 (ctxAt 0) sInit pool0 1 1000 2592000 rfl rfl
      (by decide) (by decide) (by decide) rfl,
   vesting_divisions_unguarded.2.1 posV0 pool0 5 rfl rfl⟩

/-- The position created by staking `1000` at time `0` for the 30-day
lock with no vesting. -/
def pos30 : StakingPosition :=
  { user := 1, amount := 1000, start_time := 0, last_reward_time := 0,
    reward_multiplier := 100, lock_period := 2592000, has_vesting := false,
    vesting_total_periods := 0, vesting_current_period := 0,
    vesting_period_duration := 0, vesting_cliff_percentage := 0 }

/-- The state after user `1` staked `1000` into `pool0` at time `0`. -/
def s1 : State :=
  { admin := some 9, pool := some { pool0 with total_staked := 1000 },
    emergency := some false, positions := [(1, pos30)] }

/-- Claim C3: in every successful run of `unstake` the early-withdrawal
fee is zero — the fee branch repeats the guard that already returned
`LockPeriodNotExpired`, so the non-zero-fee branch is unreachable — and
the transfer credits the user exactly
`position.amount + claimable_rewards`. -/
theorem unstake_fee_always_zero (ctx : Ctx) (s : State) (user : Nat) (r : Int)
    (hok : (unstake ctx s user).1 = .ok r) :
    ∃ pool position, s.pool = some pool ∧
      lookupPos s.positions user = some position ∧
      (∃ rc, calculate_rewards position pool ctx.now = some rc ∧
        r = rc.claimable_amount) ∧
      (unstake ctx s user).2 =
        [Eff.transfer ctx.contractAddr user (position.amount + r),
         Eff.setPool { pool with total_staked := pool.total_staked - position.amount },
         Eff.removePosition user] := by
  cases hpool : s.pool with
  | none => simp [unstake, hpool] at hok
  | some pool =>
    cases hpos : lookupPos s.positions user with
    | none => simp [unstake, hpool, hpos] at hok
    | some position =>
      by_cases hguard : ctx.now - position.start_time < position.lock_period ∧ s.emergencyMode = false
      · simp [unstake, hpool, hpos, hguard] at hok
      · cases hcalc : calculate_rewards position pool ctx.now with
        | none => simp [unstake, hpool, hpos, hguard, hcalc] at hok
        | some rc =>
          cases hadd : checked_add position.amount rc.claimable_amount with
          | none => simp [unstake, hpool, hpos, hguard, hcalc, hadd] at hok
          | some pa =>
            have hfits := (checked_add_eq hadd).2
            have hpa : pa = position.amount + rc.claimable_amount := (checked_add_eq hadd).1
            have hsub : checked_sub pa 0 = some pa :=
              checked_sub_zero (by rw [hpa]; exact hfits)
            cases hsub2 : checked_sub pool.total_staked position.amount with
            | none =>
              simp [unstake, hpool, hpos, hguard, hcalc, hadd, hsub, hsub2] at hok
            | some newTotal =>
              have hnt : newTotal = pool.total_staked - position.amount :=
                (checked_sub_eq hsub2).1
              have hr : r = rc.claimable_amount := by
                simp [unstake, hpool, hpos, hguard, hcalc, hadd, hsub, hsub2] at hok
                exact hok.symm
              have hsub1 : checked_sub (position.amount + rc.claimable_amount) 0 =
                  some (position.amount + rc.claimable_amount) := by
                rw [← hpa]
                exact hsub
              refine ⟨pool, position, rfl, rfl, ⟨rc, hcalc, hr⟩, ?_⟩
              simp [unstake, hpool, hpos, hguard, hcalc, hadd, hsub1, hsub2, hnt, hpa, hr]

/-- Witness for C3: unstaking `pos30` exactly at lock expiry succeeds
with `2592000000` claimable rewards, and the transfer credits principal
plus rewards with no fee. -/
theorem unstake_fee_always_zero_witness :
    (unstake (ctxAt 2592000) s1 1).1 = .ok 2592000000 ∧
    ∃ pool position, s1.pool = some pool ∧
      lookupPos s1.positions 1 = some position ∧
      (∃ rc, calculate_rewards position pool 2592000 = some rc ∧
        (2592000000 : Int) = rc.claimable_amount) ∧
      (unstake (ctxAt 2592000) s1 1).2 =
        [Eff.transfer 0 1 (position.amount + 2592000000),
         Eff.setPool { pool with total_staked := pool.total_staked - position.amount },
         Eff.removePosition 1] :=
  ⟨rfl, unstake_fee_always_zero (ctxAt 2592000) s1 1 2592000000 rfl⟩

/-- `s1` with emergency mode switched on. -/
def sEm : State := { s1 with emergency := some true }

/-- Claim C4: `unstake` before lock expiry with emergency mode off fails
with `LockPeriodNotExpired` and issues no effect at all; with emergency
mode on it never fails with a recoverable error — given a position
exists (and the pool is stored) any non-fatal run returns `Ok`. -/
theorem unstake_lock_guard :
    (∀ (ctx : Ctx) (s : State) (user : Nat) (pool : StakingPool) (position : StakingPosition),
      s.pool = some pool →
      lookupPos s.positions user = some position →
      ctx.now - position.start_time < position.lock_period →
      s.emergencyMode = false →
      unstake ctx s user = (.err .LockPeriodNotExpired, [])) ∧
    (∀ (ctx : Ctx) (s : State) (user : Nat) (pool : StakingPool) (position : StakingPosition),
      s.pool = some pool →
      lookupPos s.positions user = some position →
      s.emergencyMode = true →
      (unstake ctx s user).1 ≠ .fatal →
      ∃ r, (unstake ctx s user).1 = .ok r) := by
  constructor
  · intro ctx s user pool position hpool hpos hlt hem
    simp [unstake, hpool, hpos, hlt, hem]
  · intro ctx s user pool position hpool hpos hem hnf
    have hguard : ¬(ctx.now - position.start_time < position.lock_period ∧ s.emergencyMode = false) := by
      simp [hem]
    cases hcalc : calculate_rewards position pool ctx.now with
    | none =>
      exact absurd (by simp [unstake, hpool, hpos, hguard, hcalc]) hnf
    | some rc =>
      cases hadd : checked_add position.amount rc.claimable_amount with
      | none =>
        exact absurd (by simp [unstake, hpool, hpos, hguard, hcalc, hadd]) hnf
      | some pa =>
        have hsub : checked_sub pa 0 = some pa :=
          checked_sub_zero (by rw [(checked_add_eq hadd).1]; exact (checked_add_eq hadd).2)
        cases hsub2 : checked_sub pool.total_staked position.amount with
        | none =>
          exact absurd (by simp [unstake, hpool, hpos, hguard, hcalc, hadd, hsub, hsub2]) hnf
        | some newTotal =>
          exact ⟨rc.claimable_amount,
            by simp [unstake, hpool, hpos, hguard, hcalc, hadd, hsub, hsub2]⟩

/-- Witness for C4: at time `100` (lock is `2592000` seconds) unstaking
fails with `LockPeriodNotExpired` and no effects when emergency mode is
off, and succeeds when emergency mode is on. -/
theorem unstake_lock_guard_witness :
    unstake (ctxAt 100) s1 1 = (.err .LockPeriodNotExpired, []) ∧
    ∃ r, (unstake (ctxAt 100) sEm 1).1 = .ok r :=
  ⟨unstake_lock_guard.1 (ctxAt 100) s1 1 { pool0 with total_staked := 1000 } pos30 rfl rfl
      (by decide) rfl,
   unstake_lock_guard.2 (ctxAt 100) sEm 1 { pool0 with total_staked := 1000 } pos30 rfl rfl rfl
      (by decide)⟩

/-- Claim C6: when the reward engine yields `claimable_amount = 0`,
`claim_rewards` returns `Ok 0` with no transfer and no storage write,
so the stored position (its `last_reward_time` and
`vesting_current_period` included) and the pool are unchanged. -/
theorem claim_rewards_zero_noop (ctx : Ctx) (s : State) (user : Nat)
    (pool : StakingPool) (position : StakingPosition) (rc : RewardCalculation)
    (hpool : s.pool = some pool)
    (hpos : lookupPos s.positions user = some position)
    (hcalc : calculate_rewards position pool ctx.now = some rc)
    (hz : rc.claimable_amount = 0) :
    claim_rewards ctx s user = (.ok 0, []) ∧
    applyEffs s (claim_rewards ctx s user).2 = s := by
  have h : claim_rewards ctx s user = (.ok 0, []) := by
    simp [claim_rewards, hpool, hpos, hcalc, hz]
  exact ⟨h, by rw [h]; rfl⟩

/-- Witness for C6: claiming at the very instant of staking (elapsed
time `0`, hence zero rewards) is a complete no-op returning `0`. -/
theorem claim_rewards_zero_noop_witness :
    claim_rewards (ctxAt 0) s1 1 = (.ok 0, []) ∧
    applyEffs s1 (claim_rewards (ctxAt 0) s1 1).2 = s1 :=
  claim_rewards_zero_noop (ctxAt 0) s1 1 { pool0 with total_staked := 1000 } pos30
    { base_rewards := 0, bonus_rewards := 0, total_rewards := 0,
      vesting_amount := 0, claimable_amount := 0 } rfl rfl rfl rfl

/-- Characterization of every successful `stake` run: validation passed,
and the effects are exactly the debit transfer followed by the pool
update (`total_staked + amount`, other fields unchanged) and the new
position. -/
theorem stake_ok_spec (ctx : Ctx) (s : State) (user : Nat) (amount : Int)
    (lock_period : Nat) (vp : Option Nat)
    (hok : (stake ctx s user amount lock_period vp).1 = .ok ()) :
    ∃ pool vf, s.pool = some pool ∧
      s.emergencyMode = false ∧
      pool.min_stake ≤ amount ∧ amount ≤ pool.max_stake ∧
      get_reward_multiplier lock_period ≠ 0 ∧
      lookupPos s.positions user = none ∧
      vestingFields lock_period vp = some vf ∧
      fitsI128 (pool.total_staked + amount) = true ∧
      (stake ctx s user amount lock_period vp).2 =
        [Eff.transfer user ctx.contractAddr amount,
         Eff.setPool { pool with total_staked := pool.total_staked + amount },
         Eff.setPosition user
           { user := user, amount := amount, start_time := ctx.now,
             last_reward_time := ctx.now,
             reward_multiplier := get_reward_multiplier lock_period,
             lock_period := lock_period, has_vesting := vf.1,
             vesting_total_periods := vf.2.1, vesting_current_period := vf.2.2.1,
             vesting_period_duration := vf.2.2.2.1,
             vesting_cliff_percentage := vf.2.2.2.2 }] := by
  cases hpool : s.pool with
  | none => simp [stake, hpool] at hok
  | some pool =>
    by_cases hem : s.emergencyMode
    · simp [stake, hpool, hem] at hok
    · by_cases hamt : amount < pool.min_stake ∨ amount > pool.max_stake
      · simp [stake, hpool, hem, hamt] at hok
      · by_cases hmult : get_reward_multiplier lock_period = 0
        · simp [stake, hpool, hem, hamt, hmult] at hok
        · cases hpos : lookupPos s.positions user with
          | some q => simp [stake, hpool, hem, hamt, hmult, hpos] at hok
          | none =>
            cases hvf : vestingFields lock_period vp with
            | none =>
              simp [stake, hpool, hem, hamt, hmult, hpos, hvf] at hok
            | some vf =>
              obtain ⟨hv, vtp, vcp, vpd, vcl⟩ := vf
              by_cases hbal : ctx.balanceOf user < amount
              · simp [stake, hpool, hem, hamt, hmult, hpos, hvf, hbal] at hok
              · cases hadd : checked_add pool.total_staked amount with
                | none =>
                  simp [stake, hpool, hem, hamt, hmult, hpos, hvf, hbal, hadd] at hok
                | some newTotal =>
                  have hbnd : pool.min_stake ≤ amount ∧ amount ≤ pool.max_stake := by
                    push_neg at hamt
                    exact hamt
                  refine ⟨pool, (hv, vtp, vcp, vpd, vcl), rfl, by simpa using hem,
                    hbnd.1, hbnd.2, hmult, rfl, rfl,
                    (checked_add_eq hadd).2, ?_⟩
                  simp [stake, hpool, hem, hamt, hmult, hpos, hvf, hbal, hadd,
                        (checked_add_eq hadd).1]

/-- Characterization of every successful `unstake` run: the position and
the reward calculation exist, the returned value is the claimable
amount, and the effects are exactly the credit transfer of
`position.amount + r` (fee zero), the pool update subtracting the
original principal, and the position removal. -/
theorem unstake_ok_spec (ctx : Ctx) (s : State) (user : Nat) (r : Int)
    (hok : (unstake ctx s user).1 = .ok r) :
    ∃ pool position rc, s.pool = some pool ∧
      lookupPos s.positions user = some position ∧
      calculate_rewards position pool ctx.now = some rc ∧
      r = rc.claimable_amount ∧
      (unstake ctx s user).2 =
        [Eff.transfer ctx.contractAddr user (position.amount + r),
         Eff.setPool { pool with total_staked := pool.total_staked - position.amount },
         Eff.removePosition user] := by
  cases hpool : s.pool with
  | none => simp [unstake, hpool] at hok
  | some pool =>
    cases hpos : lookupPos s.positions user with
    | none => simp [unstake, hpool, hpos] at hok
    | some position =>
      by_cases hguard : ctx.now - position.start_time < position.lock_period ∧ s.emergencyMode = false
      · simp [unstake, hpool, hpos, hguard] at hok
      · cases hcalc : calculate_rewards position pool ctx.now with
        | none => simp [unstake, hpool, hpos, hguard, hcalc] at hok
        | some rc =>
          cases hadd : checked_add position.amount rc.claimable_amount with
          | none => simp [unstake, hpool, hpos, hguard, hcalc, hadd] at hok
          | some pa =>
            have hpa : pa = position.amount + rc.claimable_amount := (checked_add_eq hadd).1
            have hsub : checked_sub pa 0 = some pa :=
              checked_sub_zero (by rw [hpa]; exact (checked_add_eq hadd).2)
            cases hsub2 : checked_sub pool.total_staked position.amount with
            | none =>
              simp [unstake, hpool, hpos, hguard, hcalc, hadd, hsub, hsub2] at hok
            | some newTotal =>
              have hnt : newTotal = pool.total_staked - position.amount :=
                (checked_sub_eq hsub2).1
              have hr : r = rc.claimable_amount := by
                simp [unstake, hpool, hpos, hguard, hcalc, hadd, hsub, hsub2] at hok
                exact hok.symm
              have hsub1 : checked_sub (position.amount + rc.claimable_amount) 0 =
                  some (position.amount + rc.claimable_amount) := by
                rw [← hpa]
                exact hsub
              refine ⟨pool, position, rc, rfl, rfl, hcalc, hr, ?_⟩
              simp [unstake, hpool, hpos, hguard, hcalc, hadd, hsub1, hsub2, hnt, hpa, hr]

/-- Claim C7: a successful `stake` of `amount` raises
`pool.total_staked` by exactly `amount` leaving every other pool field
unchanged, and a successful `unstake` lowers it by exactly the
position's original principal (not principal plus rewards). -/
theorem total_staked_exact_delta :
    (∀ (ctx : Ctx) (s : State) (user : Nat) (amount : Int) (lock_period : Nat) (vp : Option Nat),
      (stake ctx s user amount lock_period vp).1 = .ok () →
      ∃ pool, s.pool = some pool ∧
        (applyEffs s (stake ctx s user amount lock_period vp).2).pool =
          some { pool with total_staked := pool.total_staked + amount }) ∧
    (∀ (ctx : Ctx) (s : State) (user : Nat) (r : Int),
      (unstake ctx s user).1 = .ok r →
      ∃ pool position, s.pool = some pool ∧
        lookupPos s.positions user = some position ∧
        (applyEffs s (unstake ctx s user).2).pool =
          some { pool with total_staked := pool.total_staked - position.amount }) := by
  constructor
  · intro ctx s user amount lock_period vp hok
    obtain ⟨pool, vf, hpool, -, -, -, -, -, -, -, heffs⟩ :=
      stake_ok_spec ctx s user amount lock_period vp hok
    refine ⟨pool, hpool, ?_⟩
    rw [heffs]
    rfl
  · intro ctx s user r hok
    obtain ⟨pool, position, rc, hpool, hpos, -, -, heffs⟩ :=
      unstake_ok_spec ctx s user r hok
    refine ⟨pool, position, hpool, hpos, ?_⟩
    rw [heffs]
    rfl

/-- Witness for C7: a concrete stake of `1000` raises `total_staked`
from `0` to `1000`, and a concrete unstake lowers it from `1000` back
to `0`. -/
theorem total_staked_exact_delta_witness :
    (∃ pool, sInit.pool = some pool ∧
      (applyEffs sInit (stake (ctxAt 0) sInit 1 1000 2592000 none).2).pool =
        some { pool with total_staked := pool.total_staked + 1000 }) ∧
    (∃ pool position, s1.pool = some pool ∧
      lookupPos s1.positions 1 = some position ∧
      (applyEffs s1 (unstake (ctxAt 2592000) s1 1).2).pool =
        some { pool with total_staked := pool.total_staked - position.amount }) :=
  ⟨total_staked_exact_delta.1 (ctxAt 0) sInit 1 1000 2592000 none rfl,
   total_staked_exact_delta.2 (ctxAt 2592000) s1 1 2592000000 rfl⟩

/-- A vesting position: 4 periods of `648000` seconds, 25% cliff,
staked at time `0`. -/
def posVest : StakingPosition :=
  { user := 1, amount := 1000, start_time := 0, last_reward_time := 0,
    reward_multiplier := 100, lock_period := 2592000, has_vesting := true,
    vesting_total_periods := 4, vesting_current_period := 0,
    vesting_period_duration := 648000, vesting_cliff_percentage := 2500 }

/-- A state holding `posVest` for user `1`. -/
def sVest : State :=
  { admin := some 9, pool := some { pool0 with total_staked := 1000 },
    emergency := some false, positions := [(1, posVest)] }

/-- Claim C8: `vesting_current_period` does not feed back into the
release math — the reward engine returns identical results for
positions differing only in that counter — and a successful non-zero
`claim_rewards` bumps the counter by exactly one when it is below
`vesting_total_periods` (else leaves it), regardless of how many periods
the calculation actually released. -/
theorem vesting_counter_informational :
    (∀ (p : StakingPosition) (pool : StakingPool) (t k : Nat),
      calculate_rewards { p with vesting_current_period := k } pool t =
        calculate_rewards p pool t) ∧
    (∀ (ctx : Ctx) (s : State) (user : Nat) (r : Int),
      (claim_rewards ctx s user).1 = .ok r → r ≠ 0 →
      ∃ pool position rc, s.pool = some pool ∧
        lookupPos s.positions user = some position ∧
        calculate_rewards position pool ctx.now = some rc ∧
        r = rc.claimable_amount ∧
        (claim_rewards ctx s user).2 =
          [Eff.transfer ctx.contractAddr user r,
           Eff.setPosition user
             (if position.has_vesting ∧
                 position.vesting_current_period < position.vesting_total_periods then
                { position with
                    last_reward_time := ctx.now,
                    vesting_current_period := position.vesting_current_period + 1 }
              else
                { position with last_reward_time := ctx.now })]) := by
  constructor
  · intro p pool t k
    rfl
  · intro ctx s user r hok hnz
    cases hpool : s.pool with
    | none => simp [claim_rewards, hpool] at hok
    | some pool =>
      cases hpos : lookupPos s.positions user with
      | none => simp [claim_rewards, hpool, hpos] at hok
      | some position =>
        cases hcalc : calculate_rewards position pool ctx.now with
        | none => simp [claim_rewards, hpool, hpos, hcalc] at hok
        | some rc =>
          by_cases hz : rc.claimable_amount = 0
          · exfalso
            apply hnz
            simp [claim_rewards, hpool, hpos, hcalc, hz] at hok
            exact hok.symm
          · have hr : r = rc.claimable_amount := by
              simp [claim_rewards, hpool, hpos, hcalc, hz] at hok
              exact hok.symm
            refine ⟨pool, position, rc, rfl, rfl, hcalc, hr, ?_⟩
            by_cases hvc : position.has_vesting = true ∧
                position.vesting_current_period < position.vesting_total_periods
            · simp [claim_rewards, hpool, hpos, hcalc, hz, hr, hvc]
            · simp [claim_rewards, hpool, hpos, hcalc, hz, hr, hvc]

/-- Witness for C8: the engine ignores the counter on `posVest`, and a
concrete claim after one vesting period transfers `162000000` and bumps
the counter from `0` to `1`. -/
theorem vesting_counter_informational_witness :
    calculate_rewards { posVest with vesting_current_period := 3 } pool0 648000 =
      calculate_rewards posVest pool0 648000 ∧
    (∃ pool position rc, sVest.pool = some pool ∧
      lookupPos sVest.positions 1 = some position ∧
      calculate_rewards position pool 648000 = some rc ∧
      (162000000 : Int) = rc.claimable_amount ∧
      (claim_rewards (ctxAt 648000) sVest 1).2 =
        [Eff.transfer 0 1 162000000,
         Eff.setPosition 1
           (if position.has_vesting ∧
               position.vesting_current_period < position.vesting_total_periods then
              { position with
                  last_reward_time := 648000,
                  vesting_current_period := position.vesting_current_period + 1 }
            else
              { position with last_reward_time := 648000 })]) :=
  ⟨vesting_counter_informational.1 posVest pool0 648000 3,
   vesting_counter_informational.2 (ctxAt 648000) sVest 1 162000000 rfl (by decide)⟩

/-- Whether an effect is a token transfer. -/
def isTransfer : Eff → Bool
  | .transfer _ _ _ => true
  | _ => false

/-- The effect list consists of transfers followed only by storage
writes: once a write appears, no further transfer occurs. -/
def transfersThenWrites : List Eff → Bool
  | [] => true
  | e :: rest =>
      if isTransfer e then transfersThenWrites rest
      else rest.all (fun x => !(isTransfer x))

/-- A pool whose `total_staked` sits at the `i128` maximum. -/
def poolMax : StakingPool := { pool0 with total_staked := I128_MAX }

/-- An initialized state holding `poolMax`. -/
def sMax : State := { sInit with pool := some poolMax }

/-- Counterexample to C2 as stated: staking `1000` when
`pool.total_staked = i128::MAX` passes every validation, issues the
debit transfer, and only then hits the fatal overflow in the
`total_staked` update — the fatal accounting overflow is detected after
an external transfer has been issued, not before. -/
theorem stake_overflow_detected_after_transfer :
    stake (ctxAt 0) sMax 1 1000 2592000 none = (.fatal, [Eff.transfer 1 0 1000]) := by
  rfl

/-- Claim C2 (amended): in `stake`, `unstake` and `claim_rewards`, every
recoverable validation failure (an `Err` return) is decided before any
external transfer and leaves no effect at all (no transfer, no storage
write), and in every execution the persisted storage writes come after
all transfers, as the final step.  (The fatal overflow/underflow check
on the `total_staked` update is the exception recorded by the
counterexample: it runs after the transfer is issued.) -/
theorem lifecycle_effect_order :
    (∀ (ctx : Ctx) (s : State) (user : Nat) (amount : Int) (lock_period : Nat) (vp : Option Nat),
      (∀ e, (stake ctx s user amount lock_period vp).1 = .err e →
        (stake ctx s user amount lock_period vp).2 = []) ∧
      transfersThenWrites (stake ctx s user amount lock_period vp).2 = true) ∧
    (∀ (ctx : Ctx) (s : State) (user : Nat),
      (∀ e, (unstake ctx s user).1 = .err e → (unstake ctx s user).2 = []) ∧
      transfersThenWrites (unstake ctx s user).2 = true) ∧
    (∀ (ctx : Ctx) (s : State) (user : Nat),
      (∀ e, (claim_rewards ctx s user).1 = .err e → (claim_rewards ctx s user).2 = []) ∧
      transfersThenWrites (claim_rewards ctx s user).2 = true) := by
  refine ⟨?_, ?_, ?_⟩
  · intro ctx s user amount lock_period vp
    cases hpool : s.pool with
    | none => simp [stake, hpool, transfersThenWrites]
    | some pool =>
      by_cases hem : s.emergencyMode
      · simp [stake, hpool, hem, transfersThenWrites]
      · by_cases hamt : amount < pool.min_stake ∨ amount > pool.max_stake
        · simp [stake, hpool, hem, hamt, transfersThenWrites]
        · by_cases hmult : get_reward_multiplier lock_period = 0
          · simp [stake, hpool, hem, hamt, hmult, transfersThenWrites]
          · cases hpos : lookupPos s.positions user with
            | some q => simp [stake, hpool, hem, hamt, hmult, hpos, transfersThenWrites]
            | none =>
              cases hvf : vestingFields lock_period vp with
              | none => simp [stake, hpool, hem, hamt, hmult, hpos, hvf, transfersThenWrites]
              | some vf =>
                obtain ⟨hv, vtp, vcp, vpd, vcl⟩ := vf
                by_cases hbal : ctx.balanceOf user < amount
                · simp [stake, hpool, hem, hamt, hmult, hpos, hvf, hbal, transfersThenWrites]
                · cases hadd : checked_add pool.total_staked amount with
                  | none =>
                    simp [stake, hpool, hem, hamt, hmult, hpos, hvf, hbal, hadd,
                          transfersThenWrites, isTransfer]
                  | some newTotal =>
                    simp [stake, hpool, hem, hamt, hmult, hpos, hvf, hbal, hadd,
                          transfersThenWrites, isTransfer]
  · intro ctx s user
    cases hpool : s.pool with
    | none => simp [unstake, hpool, transfersThenWrites]
    | some pool =>
      cases hpos : lookupPos s.positions user with
      | none => simp [unstake, hpool, hpos, transfersThenWrites]
      | some position =>
        by_cases hguard : ctx.now - position.start_time < position.lock_period ∧
            s.emergencyMode = false
        · simp [unstake, hpool, hpos, hguard, transfersThenWrites]
        · cases hcalc : calculate_rewards position pool ctx.now with
          | none => simp [unstake, hpool, hpos, hguard, hcalc, transfersThenWrites]
          | some rc =>
            cases hadd : checked_add position.amount rc.claimable_amount with
            | none => simp [unstake, hpool, hpos, hguard, hcalc, hadd, transfersThenWrites]
            | some pa =>
              have hsub : checked_sub pa 0 = some pa :=
                checked_sub_zero (by rw [(checked_add_eq hadd).1]; exact (checked_add_eq hadd).2)
              cases hsub2 : checked_sub pool.total_staked position.amount with
              | none =>
                simp [unstake, hpool, hpos, hguard, hcalc, hadd, hsub, hsub2,
                      transfersThenWrites, isTransfer]
              | some newTotal =>
                simp [unstake, hpool, hpos, hguard, hcalc, hadd, hsub, hsub2,
                      transfersThenWrites, isTransfer]
  · intro ctx s user
    cases hpool : s.pool with
    | none => simp [claim_rewards, hpool, transfersThenWrites]
    | some pool =>
      cases hpos : lookupPos s.positions user with
      | none => simp [claim_rewards, hpool, hpos, transfersThenWrites]
      | some position =>
        cases hcalc : calculate_rewards position pool ctx.now with
        | none => simp [claim_rewards, hpool, hpos, hcalc, transfersThenWrites]
        | some rc =>
          by_cases hz : rc.claimable_amount = 0
          · simp [claim_rewards, hpool, hpos, hcalc, hz, transfersThenWrites]
          · simp [claim_rewards, hpool, hpos, hcalc, hz, transfersThenWrites, isTransfer]

/-- Witness for the amended C2: a concrete `EmergencyMode` rejection of
`stake` leaves no effects, and a concrete successful `unstake` issues
its transfer before its storage writes. -/
theorem lifecycle_effect_order_witness :
    (stake (ctxAt 0) sEm 1 1000 2592000 none).2 = [] ∧
    transfersThenWrites (unstake (ctxAt 2592000) s1 1).2 = true :=
  ⟨(lifecycle_effect_order.1 (ctxAt 0) sEm 1 1000 2592000 none).1 .EmergencyMode rfl,
   (lifecycle_effect_order.2.1 (ctxAt 2592000) s1 1).2⟩

/-- Helper: a successful `checked_mul` yields the exact product. -/
theorem checked_mul_eq {a b c : Int} (h : checked_mul a b = some c) :
    c = a * b ∧ fitsI128 (a * b) = true := by
  unfold checked_mul at h
  by_cases hf : fitsI128 (a * b)
  · simp [hf] at h
    exact ⟨h.symm, hf⟩
  · simp [hf] at h

/-- Every successful reward calculation satisfies the base/bonus/total
formulas of the source, independent of the vesting branch taken. -/
theorem calc_total_eq (p : StakingPosition) (pool : StakingPool) (t : Nat)
    (rc : RewardCalculation) (h : calculate_rewards p pool t = some rc) :
    rc.base_rewards =
      Int.tdiv (pool.reward_rate * p.amount * Int.ofNat (t - p.last_reward_time))
        1000000000 ∧
    rc.total_rewards =
      rc.base_rewards +
        Int.tdiv (rc.base_rewards * (Int.ofNat p.reward_multiplier - 100)) 100 := by
  simp only [calculate_rewards, bind, Option.bind_eq_bind] at h
  rw [Option.bind_eq_some] at h
  obtain ⟨m1, hm1, h⟩ := h
  rw [Option.bind_eq_some] at h
  obtain ⟨m2, hm2, h⟩ := h
  rw [Option.bind_eq_some] at h
  obtain ⟨m3, hm3, h⟩ := h
  rw [Option.bind_eq_some] at h
  obtain ⟨tot, htot, h⟩ := h
  obtain ⟨hm1e, -⟩ := checked_mul_eq hm1
  obtain ⟨hm2e, -⟩ := checked_mul_eq hm2
  obtain ⟨hm3e, -⟩ := checked_mul_eq hm3
  obtain ⟨htote, -⟩ := checked_add_eq htot
  subst hm1e
  subst hm2e
  subst hm3e
  subst htote
  split_ifs at h
  all_goals simp only [Option.pure_def, Option.some_bind, Option.none_bind] at h
  all_goals try exact Option.noConfusion h
  all_goals try (rw [Option.bind_eq_some] at h; obtain ⟨x1, hx1, h⟩ := h)
  all_goals try (rw [Option.bind_eq_some] at h; obtain ⟨x2, hx2, h⟩ := h)
  all_goals (injection h with h; subst h; exact ⟨rfl, rfl⟩)

/-- Helper: the base-plus-bonus formula is monotone in the elapsed time
when the rate-amount product and the bonus factor are nonnegative. -/
theorem formula_mono (q c : Int) (e1 e2 : Nat) (hq : 0 ≤ q) (hc : 0 ≤ c)
    (he : e1 ≤ e2) :
    Int.tdiv (q * Int.ofNat e1) 1000000000 +
      Int.tdiv (Int.tdiv (q * Int.ofNat e1) 1000000000 * c) 100 ≤
    Int.tdiv (q * Int.ofNat e2) 1000000000 +
      Int.tdiv (Int.tdiv (q * Int.ofNat e2) 1000000000 * c) 100 := by
  have he2 : (Int.ofNat e1) ≤ Int.ofNat e2 := Int.ofNat_le.mpr he
  have h1 : (0:Int) ≤ q * Int.ofNat e1 := mul_nonneg hq (Int.ofNat_nonneg _)
  have h2 : (0:Int) ≤ q * Int.ofNat e2 := mul_nonneg hq (Int.ofNat_nonneg _)
  have hmul : q * Int.ofNat e1 ≤ q * Int.ofNat e2 := mul_le_mul_of_nonneg_left he2 hq
  rw [Int.tdiv_eq_ediv h1 (by norm_num), Int.tdiv_eq_ediv h2 (by norm_num)]
  have hb1 : (0:Int) ≤ (q * Int.ofNat e1) / 1000000000 := Int.ediv_nonneg h1 (by norm_num)
  have hb2 : (0:Int) ≤ (q * Int.ofNat e2) / 1000000000 := Int.ediv_nonneg h2 (by norm_num)
  have hble : (q * Int.ofNat e1) / 1000000000 ≤ (q * Int.ofNat e2) / 1000000000 :=
    Int.ediv_le_ediv (by norm_num) hmul
  rw [Int.tdiv_eq_ediv (mul_nonneg hb1 hc) (by norm_num),
      Int.tdiv_eq_ediv (mul_nonneg hb2 hc) (by norm_num)]
  exact add_le_add hble (Int.ediv_le_ediv (by norm_num) (mul_le_mul_of_nonneg_right hble hc))

/-- Claim C5: reward accrual is monotone in time — for a fixed position
with a recognized multiplier and positive amount, and a pool with
nonnegative rate, `total_rewards` at a later time is at least
`total_rewards` at an earlier time, whenever both calculations
succeed. -/
theorem total_rewards_monotone (p : StakingPosition) (pool : StakingPool)
    (now1 now2 : Nat) (rc1 rc2 : RewardCalculation)
    (hmul : p.reward_multiplier = 100 ∨ p.reward_multiplier = 150 ∨
      p.reward_multiplier = 200 ∨ p.reward_multiplier = 300)
    (hamt : 0 < p.amount) (hrate : 0 ≤ pool.reward_rate) (hle : now1 ≤ now2)
    (h1 : calculate_rewards p pool now1 = some rc1)
    (h2 : calculate_rewards p pool now2 = some rc2) :
    rc1.total_rewards ≤ rc2.total_rewards := by
  obtain ⟨hb1, ht1⟩ := calc_total_eq p pool now1 rc1 h1
  obtain ⟨hb2, ht2⟩ := calc_total_eq p pool now2 rc2 h2
  rw [ht1, ht2, hb1, hb2]
  have hq : 0 ≤ pool.reward_rate * p.amount := mul_nonneg hrate hamt.le
  have hc : (0:Int) ≤ Int.ofNat p.reward_multiplier - 100 := by
    rcases hmul with h | h | h | h <;> rw [h] <;> norm_num
  exact formula_mono _ _ _ _ hq hc (Nat.sub_le_sub_right hle _)

/-- Witness for C5: for `pos30` in `pool0`, total rewards at time `100`
(`100000`) are at most total rewards at time `200` (`200000`). -/
theorem total_rewards_monotone_witness :
    calculate_rewards pos30 pool0 100 =
      some { base_rewards := 100000, bonus_rewards := 0, total_rewards := 100000,
             vesting_amount := 100000, claimable_amount := 100000 } ∧
    calculate_rewards pos30 pool0 200 =
      some { base_rewards := 200000, bonus_rewards := 0, total_rewards := 200000,
             vesting_amount := 200000, claimable_amount := 200000 } ∧
    ({ base_rewards := 100000, bonus_rewards := 0, total_rewards := 100000,
       vesting_amount := 100000, claimable_amount := 100000 } :
        RewardCalculation).total_rewards ≤
      ({ base_rewards := 200000, bonus_rewards := 0, total_rewards := 200000,
         vesting_amount := 200000, claimable_amount := 200000 } :
          RewardCalculation).total_rewards :=
  ⟨rfl, rfl,
   total_rewards_monotone pos30 pool0 100 200
     { base_rewards := 100000, bonus_rewards := 0, total_rewards := 100000,
       vesting_amount := 100000, claimable_amount := 100000 }
     { base_rewards := 200000, bonus_rewards := 0, total_rewards := 200000,
       vesting_amount := 200000, claimable_amount := 200000 }
     (Or.inl rfl) (by decide) (by decide) (by decide) rfl rfl⟩

/-- Sum of the staked principal over all stored positions. -/
def totalAmount (l : List (Nat × StakingPosition)) : Int :=
  (l.map (fun e => e.2.amount)).sum

/-- Helper: a lookup misses exactly when the key is absent. -/
theorem lookupPos_eq_none {l : List (Nat × StakingPosition)} {u : Nat} :
    lookupPos l u = none ↔ u ∉ l.map Prod.fst := by
  induction l with
  | nil => simp [lookupPos]
  | cons e rest ih =>
    by_cases he : e.1 = u
    · simp [lookupPos, he]
    · simp [lookupPos, he, ih, Ne.symm he]

/-- Helper: a found entry is a member of the store. -/
theorem lookupPos_mem {l : List (Nat × StakingPosition)} {u : Nat} {q : StakingPosition}
    (h : lookupPos l u = some q) : (u, q) ∈ l := by
  induction l with
  | nil => simp [lookupPos] at h
  | cons e rest ih =>
    by_cases he : e.1 = u
    · simp [lookupPos, he] at h
      exact List.mem_cons.mpr (Or.inl (by rw [← he, ← h]))
    · simp [lookupPos, he] at h
      exact List.mem_cons_of_mem _ (ih h)

/-- Helper: writing an absent key appends the entry. -/
theorem setPos_of_not_found {l : List (Nat × StakingPosition)} {u : Nat}
    (p : StakingPosition) (h : lookupPos l u = none) :
    setPos l u p = l ++ [(u, p)] := by
  induction l with
  | nil => simp [setPos]
  | cons e rest ih =>
    by_cases he : e.1 = u
    · simp [lookupPos, he] at h
    · simp [lookupPos, he] at h
      simp [setPos, he, ih h]

/-- Helper: overwriting a present key keeps the key list. -/
theorem keys_setPos_found {l : List (Nat × StakingPosition)} {u : Nat}
    {q : StakingPosition} (p : StakingPosition) (h : lookupPos l u = some q) :
    (setPos l u p).map Prod.fst = l.map Prod.fst := by
  induction l with
  | nil => simp [lookupPos] at h
  | cons e rest ih =>
    by_cases he : e.1 = u
    · simp [setPos, he]
    · simp [lookupPos, he] at h
      simp [setPos, he, ih h]

/-- Helper: overwriting with an equal amount keeps the total. -/
theorem totalAmount_setPos_found {l : List (Nat × StakingPosition)} {u : Nat}
    {q : StakingPosition} (p : StakingPosition) (h : lookupPos l u = some q)
    (ha : p.amount = q.amount) :
    totalAmount (setPos l u p) = totalAmount l := by
  induction l with
  | nil => simp [lookupPos] at h
  | cons e rest ih =>
    by_cases he : e.1 = u
    · simp [lookupPos, he] at h
      simp [setPos, he, totalAmount, ha, h]
    · simp [lookupPos, he] at h
      simp [setPos, he, totalAmount] at ih ⊢
      rw [ih h]

/-- Helper: membership after a write. -/
theorem mem_setPos {l : List (Nat × StakingPosition)} {u : Nat}
    {p : StakingPosition} {e : Nat × StakingPosition}
    (h : e ∈ setPos l u p) : e ∈ l ∨ e = (u, p) := by
  induction l with
  | nil => simp [setPos] at h; right; exact h
  | cons f rest ih =>
    by_cases hf : f.1 = u
    · simp [setPos, hf] at h
      rcases h with h | h
      · right; exact h
      · left; exact List.mem_cons_of_mem _ h
    · simp [setPos, hf] at h
      rcases h with h | h
      · left; simp [h]
      · rcases ih h with h2 | h2
        · left; exact List.mem_cons_of_mem _ h2
        · right; exact h2

/-- Helper: removal yields a sublist. -/
theorem removePos_sublist (l : List (Nat × StakingPosition)) (u : Nat) :
    List.Sublist (removePos l u) l := by
  induction l with
  | nil => simp [removePos]
  | cons e rest ih =>
    by_cases he : e.1 = u
    · simp only [removePos, he, if_pos]
      exact ih.cons e
    · simp only [removePos, he, if_neg, ite_false]
      exact ih.cons₂ e

/-- Helper: removing an absent key is a no-op. -/
theorem removePos_of_not_found {l : List (Nat × StakingPosition)} {u : Nat}
    (h : u ∉ l.map Prod.fst) : removePos l u = l := by
  induction l with
  | nil => simp [removePos]
  | cons e rest ih =>
    rw [List.map_cons] at h
    have h1 : ¬ e.1 = u := fun hc => h (hc ▸ List.mem_cons_self _ _)
    have h2 : u ∉ rest.map Prod.fst := fun hc => h (List.mem_cons_of_mem _ hc)
    simp [removePos, h1, ih h2]

/-- Helper: removing a present key (keys distinct) subtracts its amount. -/
theorem totalAmount_removePos {l : List (Nat × StakingPosition)} {u : Nat}
    {q : StakingPosition} (hnd : (l.map Prod.fst).Nodup)
    (h : lookupPos l u = some q) :
    totalAmount (removePos l u) = totalAmount l - q.amount := by
  induction l with
  | nil => simp [lookupPos] at h
  | cons e rest ih =>
    rw [List.map_cons, List.nodup_cons] at hnd
    by_cases he : e.1 = u
    · simp [lookupPos, he] at h
      have hno : u ∉ rest.map Prod.fst := he ▸ hnd.1
      simp [removePos, he, removePos_of_not_found hno, totalAmount, h]
    · simp [lookupPos, he] at h
      simp only [removePos, he, ite_false, if_neg]
      simp only [totalAmount, List.map_cons, List.sum_cons]
      simp only [totalAmount] at ih
      rw [ih hnd.2 h]
      ring

/-- Helper: a store of nonnegative amounts has a nonnegative total. -/
theorem totalAmount_nonneg {l : List (Nat × StakingPosition)}
    (h : ∀ e ∈ l, 0 ≤ e.2.amount) : 0 ≤ totalAmount l := by
  induction l with
  | nil => simp [totalAmount]
  | cons e rest ih =>
    have h1 := h e (List.mem_cons_self e rest)
    have h2 := ih (fun f hf => h f (List.mem_cons_of_mem _ hf))
    simp only [totalAmount, List.map_cons, List.sum_cons]
    simp only [totalAmount] at h2
    omega

/-- Helper: lookup after a write. -/
theorem lookupPos_setPos (l : List (Nat × StakingPosition)) (u v : Nat)
    (p : StakingPosition) :
    lookupPos (setPos l u p) v = if v = u then some p else lookupPos l v := by
  induction l with
  | nil =>
    by_cases hv : v = u
    · simp [setPos, lookupPos, hv]
    · have hu : ¬ u = v := fun h => hv h.symm
      simp [setPos, lookupPos, hv, hu]
  | cons e rest ih =>
    by_cases he : e.1 = u
    · by_cases hv : v = u
      · simp [setPos, he, lookupPos, hv]
      · have hu : ¬ u = v := fun h => hv h.symm
        have hev : ¬ e.1 = v := he ▸ hu
        simp [setPos, he, lookupPos, hv, hu, hev]
    · simp only [setPos, he, ite_false, if_neg]
      by_cases hev : e.1 = v
      · have hvu : ¬ v = u := fun h => he (hev.trans h)
        simp [lookupPos, hev, hvu]
      · simp [lookupPos, hev, ih]

/-- Characterization of a successful `initialize`: the admin slot was
empty, the bounds are valid, and the new state stores the admin, a pool
with `total_staked = 0` and a 500 bps fee, and emergency off. -/
theorem init_ok_state (s : State) (a tok : Nat) (rr : Int) (bm : Nat) (mn mx : Int)
    (hok : (initializeContract s a tok rr bm mn mx).1 = .ok ()) :
    s.admin = none ∧ 0 ≤ mn ∧ mn < mx ∧
    applyEffs s (initializeContract s a tok rr bm mn mx).2 =
      { s with
          admin := some a,
          pool := some { token := tok, total_staked := 0, reward_rate := rr,
                         bonus_multiplier := bm, min_stake := mn, max_stake := mx,
                         emergency_withdrawal_fee := 500 },
          emergency := some false } := by
  by_cases h1 : s.admin.isSome
  · simp [initializeContract, h1] at hok
  · by_cases h2 : rr < 0
    · simp [initializeContract, h1, h2] at hok
    · by_cases h3 : mn < 0 ∨ mx ≤ mn
      · simp [initializeContract, h1, h2, h3] at hok
      · have h4 : 0 ≤ mn ∧ mn < mx := by
          push_neg at h3
          exact ⟨h3.1, h3.2⟩
        refine ⟨Option.not_isSome_iff_eq_none.mp h1, h4.1, h4.2, ?_⟩
        simp [initializeContract, h1, h2, h3, applyEffs, applyEff]

/-- `initialize` either leaves the state unchanged or succeeds. -/
theorem init_state_shape (s : State) (a tok : Nat) (rr : Int) (bm : Nat) (mn mx : Int) :
    applyEffs s (initializeContract s a tok rr bm mn mx).2 = s ∨
    (initializeContract s a tok rr bm mn mx).1 = .ok () := by
  by_cases h1 : s.admin.isSome
  · left; simp [initializeContract, h1, applyEffs]
  · by_cases h2 : rr < 0
    · left; simp [initializeContract, h1, h2, applyEffs]
    · by_cases h3 : mn < 0 ∨ mx ≤ mn
      · left; simp [initializeContract, h1, h2, h3, applyEffs]
      · right; simp [initializeContract, h1, h2, h3]

/-- `stake` either leaves the state unchanged or succeeds. -/
theorem stake_state_shape (ctx : Ctx) (s : State) (user : Nat) (amount : Int)
    (lock_period : Nat) (vp : Option Nat) :
    applyEffs s (stake ctx s user amount lock_period vp).2 = s ∨
    (stake ctx s user amount lock_period vp).1 = .ok () := by
  cases hpool : s.pool with
  | none => left; simp [stake, hpool, applyEffs]
  | some pool =>
    by_cases hem : s.emergencyMode
    · left; simp [stake, hpool, hem, applyEffs]
    · by_cases hamt : amount < pool.min_stake ∨ amount > pool.max_stake
      · left; simp [stake, hpool, hem, hamt, applyEffs]
      · by_cases hmult : get_reward_multiplier lock_period = 0
        · left; simp [stake, hpool, hem, hamt, hmult, applyEffs]
        · cases hpos : lookupPos s.positions user with
          | some q => left; simp [stake, hpool, hem, hamt, hmult, hpos, applyEffs]
          | none =>
            cases hvf : vestingFields lock_period vp with
            | none => left; simp [stake, hpool, hem, hamt, hmult, hpos, hvf, applyEffs]
            | some vf =>
              obtain ⟨hv, vtp, vcp, vpd, vcl⟩ := vf
              by_cases hbal : ctx.balanceOf user < amount
              · left; simp [stake, hpool, hem, hamt, hmult, hpos, hvf, hbal, applyEffs]
              · cases hadd : checked_add pool.total_staked amount with
                | none =>
                  left
                  simp [stake, hpool, hem, hamt, hmult, hpos, hvf, hbal, hadd,
                        applyEffs, applyEff]
                | some newTotal =>
                  right
                  simp [stake, hpool, hem, hamt, hmult, hpos, hvf, hbal, hadd]

/-- `unstake` either leaves the state unchanged or succeeds. -/
theorem unstake_state_shape (ctx : Ctx) (s : State) (user : Nat) :
    applyEffs s (unstake ctx s user).2 = s ∨
    ∃ r, (unstake ctx s user).1 = .ok r := by
  cases hpool : s.pool with
  | none => left; simp [unstake, hpool, applyEffs]
  | some pool =>
    cases hpos : lookupPos s.positions user with
    | none => left; simp [unstake, hpool, hpos, applyEffs]
    | some position =>
      by_cases hguard : ctx.now - position.start_time < position.lock_period ∧
          s.emergencyMode = false
      · left; simp [unstake, hpool, hpos, hguard, applyEffs]
      · cases hcalc : calculate_rewards position pool ctx.now with
        | none => left; simp [unstake, hpool, hpos, hguard, hcalc, applyEffs]
        | some rc =>
          cases hadd : checked_add position.amount rc.claimable_amount with
          | none => left; simp [unstake, hpool, hpos, hguard, hcalc, hadd, applyEffs]
          | some pa =>
            have hsub : checked_sub pa 0 = some pa :=
              checked_sub_zero (by rw [(checked_add_eq hadd).1]; exact (checked_add_eq hadd).2)
            cases hsub2 : checked_sub pool.total_staked position.amount with
            | none =>
              left
              simp [unstake, hpool, hpos, hguard, hcalc, hadd, hsub, hsub2,
                    applyEffs, applyEff]
            | some newTotal =>
              right
              exact ⟨rc.claimable_amount,
                by simp [unstake, hpool, hpos, hguard, hcalc, hadd, hsub, hsub2]⟩

/-- `claim_rewards` either leaves the state unchanged or overwrites the
caller's position with one of equal principal. -/
theorem claim_state_shape (ctx : Ctx) (s : State) (user : Nat) :
    applyEffs s (claim_rewards ctx s user).2 = s ∨
    ∃ position p2, lookupPos s.positions user = some position ∧
      p2.amount = position.amount ∧
      applyEffs s (claim_rewards ctx s user).2 =
        { s with positions := setPos s.positions user p2 } := by
  cases hpool : s.pool with
  | none => left; simp [claim_rewards, hpool, applyEffs]
  | some pool =>
    cases hpos : lookupPos s.positions user with
    | none => left; simp [claim_rewards, hpool, hpos, applyEffs]
    | some position =>
      cases hcalc : calculate_rewards position pool ctx.now with
      | none => left; simp [claim_rewards, hpool, hpos, hcalc, applyEffs]
      | some rc =>
        by_cases hz : rc.claimable_amount = 0
        · left; simp [claim_rewards, hpool, hpos, hcalc, hz, applyEffs]
        · right
          refine ⟨position,
            (if position.has_vesting = true ∧
                position.vesting_current_period < position.vesting_total_periods then
              { position with
                  last_reward_time := ctx.now,
                  vesting_current_period := position.vesting_current_period + 1 }
            else { position with last_reward_time := ctx.now }), rfl, ?_, ?_⟩
          · by_cases hvc : position.has_vesting = true ∧
                position.vesting_current_period < position.vesting_total_periods <;>
              simp [hvc]
          · by_cases hvc : position.has_vesting = true ∧
                position.vesting_current_period < position.vesting_total_periods <;>
              simp [claim_rewards, hpool, hpos, hcalc, hz, hvc, applyEffs, applyEff]

/-- `update_pool` either leaves the state unchanged or replaces the pool
keeping `total_staked` and `min_stake`. -/
theorem update_pool_state_shape (s : State) (admin : Nat) (rr : Option Int)
    (bm : Option Nat) :
    applyEffs s (update_pool s admin rr bm).2 = s ∨
    ∃ pool pool2, s.pool = some pool ∧ pool2.total_staked = pool.total_staked ∧
      pool2.min_stake = pool.min_stake ∧
      applyEffs s (update_pool s admin rr bm).2 = { s with pool := some pool2 } := by
  cases hadm : s.admin with
  | none => left; simp [update_pool, hadm, applyEffs]
  | some stored =>
    by_cases hne : admin ≠ stored
    · left; simp [update_pool, hadm, hne, applyEffs]
    · cases hpool : s.pool with
      | none => left; simp [update_pool, hadm, hne, hpool, applyEffs]
      | some pool =>
        cases hrr : rr with
        | some new_rate =>
          by_cases hneg : new_rate < 0
          · left; simp [update_pool, hadm, hne, hpool, hrr, hneg, applyEffs]
          · right
            cases hbm : bm with
            | some m =>
              refine ⟨pool, { pool with reward_rate := new_rate, bonus_multiplier := m },
                rfl, rfl, rfl, ?_⟩
              simp [update_pool, hadm, hne, hpool, hrr, hneg, hbm, applyEffs, applyEff]
            | none =>
              refine ⟨pool, { pool with reward_rate := new_rate }, rfl, rfl, rfl, ?_⟩
              simp [update_pool, hadm, hne, hpool, hrr, hneg, hbm, applyEffs, applyEff]
        | none =>
          right
          cases hbm : bm with
          | some m =>
            refine ⟨pool, { pool with bonus_multiplier := m }, rfl, rfl, rfl, ?_⟩
            simp [update_pool, hadm, hne, hpool, hrr, hbm, applyEffs, applyEff]
          | none =>
            refine ⟨pool, pool, rfl, rfl, rfl, ?_⟩
            simp [update_pool, hadm, hne, hpool, hrr, hbm, applyEffs, applyEff]

/-- `set_emergency_mode` either leaves the state unchanged or only sets
the emergency flag. -/
theorem set_emergency_state_shape (s : State) (admin : Nat) (b : Bool) :
    applyEffs s (set_emergency_mode s admin b).2 = s ∨
    applyEffs s (set_emergency_mode s admin b).2 = { s with emergency := some b } := by
  cases hadm : s.admin with
  | none => left; simp [set_emergency_mode, hadm, applyEffs]
  | some stored =>
    by_cases hne : admin ≠ stored
    · left; simp [set_emergency_mode, hadm, hne, applyEffs]
    · right; simp [set_emergency_mode, hadm, hne, applyEffs, applyEff]

/-- States reachable from a fresh deployment: a successful `initialize`
on the empty state, then any sequence of the public operations (a
recoverable error or a fatal abort leaves the stored state unchanged,
since no storage write precedes the abort point). -/
inductive Reach : State → Prop where
  | init (a tok : Nat) (rr : Int) (bm : Nat) (mn mx : Int)
      (hok : (initializeContract State.empty a tok rr bm mn mx).1 = .ok ()) :
      Reach (applyEffs State.empty (initializeContract State.empty a tok rr bm mn mx).2)
  | reinit (s : State) (a tok : Nat) (rr : Int) (bm : Nat) (mn mx : Int) :
      Reach s → Reach (applyEffs s (initializeContract s a tok rr bm mn mx).2)
  | stake_step (s : State) (ctx : Ctx) (user : Nat) (amount : Int)
      (lock_period : Nat) (vp : Option Nat) :
      Reach s → Reach (applyEffs s (stake ctx s user amount lock_period vp).2)
  | unstake_step (s : State) (ctx : Ctx) (user : Nat) :
      Reach s → Reach (applyEffs s (unstake ctx s user).2)
  | claim_step (s : State) (ctx : Ctx) (user : Nat) :
      Reach s → Reach (applyEffs s (claim_rewards ctx s user).2)
  | update_step (s : State) (admin : Nat) (rr : Option Int) (bm : Option Nat) :
      Reach s → Reach (applyEffs s (update_pool s admin rr bm).2)
  | emergency_step (s : State) (admin : Nat) (b : Bool) :
      Reach s → Reach (applyEffs s (set_emergency_mode s admin b).2)

/-- The conservation invariant carried through the induction: an admin
is stored, the pool is stored with `total_staked` equal to the sum of
position amounts and a nonnegative `min_stake`, every stored amount is
nonnegative, and position keys are distinct. -/
def StInv (s : State) : Prop :=
  s.admin.isSome = true ∧
  (∃ pool, s.pool = some pool ∧
    pool.total_staked = totalAmount s.positions ∧ 0 ≤ pool.min_stake) ∧
  (∀ e ∈ s.positions, 0 ≤ e.2.amount) ∧
  (s.positions.map Prod.fst).Nodup

/-- Every reachable state satisfies the conservation invariant. -/
theorem StInv_of_Reach (s : State) (h : Reach s) : StInv s := by
  induction h with
  | init a tok rr bm mn mx hok =>
    obtain ⟨hadm, hmn, hmx, hstate⟩ := init_ok_state _ a tok rr bm mn mx hok
    rw [hstate]
    exact ⟨rfl, ⟨_, rfl, by simp [State.empty, totalAmount], hmn⟩,
      by simp [State.empty], by simp [State.empty]⟩
  | reinit s a tok rr bm mn mx hr ih =>
    rcases init_state_shape s a tok rr bm mn mx with hs | hok
    · rw [hs]; exact ih
    · obtain ⟨hadm, -, -, -⟩ := init_ok_state s a tok rr bm mn mx hok
      have h1 := ih.1
      rw [hadm] at h1
      exact absurd h1 (by simp)
  | stake_step s ctx user amount lock_period vp hr ih =>
    rcases stake_state_shape ctx s user amount lock_period vp with hs | hok
    · rw [hs]; exact ih
    · obtain ⟨pool, vf, hpool, hem, hmin, hmax, hmult, hposn, hvf, hfits, heffs⟩ :=
        stake_ok_spec ctx s user amount lock_period vp hok
      obtain ⟨hadm, ⟨poolI, hpoolI, htotI, hminI⟩, hnn, hnd⟩ := ih
      have hpe : poolI = pool := by
        rw [hpool] at hpoolI
        exact (Option.some_injective _ hpoolI).symm
      subst hpe
      have hstate : applyEffs s (stake ctx s user amount lock_period vp).2 =
          { s with
              pool := some { poolI with total_staked := poolI.total_staked + amount },
              positions := setPos s.positions user
                { user := user, amount := amount, start_time := ctx.now,
                  last_reward_time := ctx.now,
                  reward_multiplier := get_reward_multiplier lock_period,
                  lock_period := lock_period, has_vesting := vf.1,
                  vesting_total_periods := vf.2.1, vesting_current_period := vf.2.2.1,
                  vesting_period_duration := vf.2.2.2.1,
                  vesting_cliff_percentage := vf.2.2.2.2 } } := by
        rw [heffs]
        rfl
      rw [hstate]
      have hsp := setPos_of_not_found (l := s.positions) (u := user)
        { user := user, amount := amount, start_time := ctx.now,
          last_reward_time := ctx.now,
          reward_multiplier := get_reward_multiplier lock_period,
          lock_period := lock_period, has_vesting := vf.1,
          vesting_total_periods := vf.2.1, vesting_current_period := vf.2.2.1,
          vesting_period_duration := vf.2.2.2.1,
          vesting_cliff_percentage := vf.2.2.2.2 } hposn
      have hanon : (0:Int) ≤ amount := le_trans hminI hmin
      refine ⟨hadm, ⟨_, rfl, ?_, hminI⟩, ?_, ?_⟩
      · simp only [hsp, totalAmount, List.map_append, List.sum_append, htotI]
        simp [totalAmount]
      · intro e he
        rcases mem_setPos he with h2 | h2
        · exact hnn e h2
        · rw [h2]
          exact hanon
      · rw [hsp]
        rw [List.map_append]
        rw [List.nodup_append]
        refine ⟨hnd, List.nodup_singleton _, ?_⟩
        intro x hx hx2
        simp at hx2
        rw [hx2] at hx
        exact (lookupPos_eq_none.mp hposn) hx
  | unstake_step s ctx user hr ih =>
    rcases unstake_state_shape ctx s user with hs | ⟨r, hok⟩
    · rw [hs]; exact ih
    · obtain ⟨pool, position, rc, hpool, hposn, hcalc, hrr, heffs⟩ :=
        unstake_ok_spec ctx s user r hok
      obtain ⟨hadm, ⟨poolI, hpoolI, htotI, hminI⟩, hnn, hnd⟩ := ih
      have hpe : poolI = pool := by
        rw [hpool] at hpoolI
        exact (Option.some_injective _ hpoolI).symm
      subst hpe
      have hstate : applyEffs s (unstake ctx s user).2 =
          { s with
              pool := some { poolI with total_staked := poolI.total_staked - position.amount },
              positions := removePos s.positions user } := by
        rw [heffs]
        rfl
      rw [hstate]
      refine ⟨hadm, ⟨_, rfl, ?_, hminI⟩, ?_, ?_⟩
      · rw [totalAmount_removePos hnd hposn, htotI]
      · intro e he
        exact hnn e ((removePos_sublist s.positions user).subset he)
      · exact hnd.sublist ((removePos_sublist s.positions user).map Prod.fst)
  | claim_step s ctx user hr ih =>
    rcases claim_state_shape ctx s user with hs | ⟨position, p2, hposn, hamt, hstate⟩
    · rw [hs]; exact ih
    · obtain ⟨hadm, ⟨poolI, hpoolI, htotI, hminI⟩, hnn, hnd⟩ := ih
      rw [hstate]
      refine ⟨hadm, ⟨poolI, hpoolI, ?_, hminI⟩, ?_, ?_⟩
      · rw [totalAmount_setPos_found p2 hposn hamt, htotI]
      · intro e he
        rcases mem_setPos he with h2 | h2
        · exact hnn e h2
        · rw [h2]
          simp only [hamt]
          exact hnn (user, position) (lookupPos_mem hposn)
      · rw [keys_setPos_found p2 hposn]
        exact hnd
  | update_step s admin rr bm hr ih =>
    rcases update_pool_state_shape s admin rr bm with
      hs | ⟨pool, pool2, hpool, htot2, hmin2, hstate⟩
    · rw [hs]; exact ih
    · obtain ⟨hadm, ⟨poolI, hpoolI, htotI, hminI⟩, hnn, hnd⟩ := ih
      have hpe : poolI = pool := by
        rw [hpool] at hpoolI
        exact (Option.some_injective _ hpoolI).symm
      subst hpe
      rw [hstate]
      exact ⟨hadm, ⟨pool2, rfl, by rw [htot2, htotI], by rw [hmin2]; exact hminI⟩, hnn, hnd⟩
  | emergency_step s admin b hr ih =>
    rcases set_emergency_state_shape s admin b with hs | hs
    · rw [hs]; exact ih
    · obtain ⟨hadm, hp, hnn, hnd⟩ := ih
      rw [hs]
      exact ⟨hadm, hp, hnn, hnd⟩

/-- Claim C10: conservation — in every reachable state the stored pool's
`total_staked` equals the sum of `amount` over all stored positions
(hence it is nonnegative, and zero when no position exists); moreover
`claim_rewards` never changes the pool or any position's principal, and
`update_pool` / `set_emergency_mode` never change the positions or
`total_staked`. -/
theorem staking_conservation :
    (∀ s : State, Reach s →
      ∃ pool, s.pool = some pool ∧
        pool.total_staked = totalAmount s.positions ∧
        0 ≤ pool.total_staked ∧
        (s.positions = [] → pool.total_staked = 0)) ∧
    (∀ (ctx : Ctx) (s : State) (user v : Nat),
      (applyEffs s (claim_rewards ctx s user).2).pool = s.pool ∧
      Option.map StakingPosition.amount
          (lookupPos (applyEffs s (claim_rewards ctx s user).2).positions v) =
        Option.map StakingPosition.amount (lookupPos s.positions v)) ∧
    (∀ (s : State) (admin : Nat) (rr : Option Int) (bm : Option Nat),
      (applyEffs s (update_pool s admin rr bm).2).positions = s.positions ∧
      Option.map StakingPool.total_staked (applyEffs s (update_pool s admin rr bm).2).pool =
        Option.map StakingPool.total_staked s.pool) ∧
    (∀ (s : State) (admin : Nat) (b : Bool),
      (applyEffs s (set_emergency_mode s admin b).2).positions = s.positions ∧
      (applyEffs s (set_emergency_mode s admin b).2).pool = s.pool) := by
  refine ⟨?_, ?_, ?_, ?_⟩
  · intro s h
    obtain ⟨-, ⟨pool, hpool, htot, -⟩, hnn, -⟩ := StInv_of_Reach s h
    refine ⟨pool, hpool, htot, ?_, ?_⟩
    · rw [htot]
      exact totalAmount_nonneg hnn
    · intro he
      rw [htot, he]
      simp [totalAmount]
  · intro ctx s user v
    rcases claim_state_shape ctx s user with hs | ⟨position, p2, hposn, hamt, hstate⟩
    · rw [hs]
      exact ⟨rfl, rfl⟩
    · rw [hstate]
      refine ⟨rfl, ?_⟩
      show Option.map _ (lookupPos (setPos s.positions user p2) v) = _
      rw [lookupPos_setPos]
      by_cases hv : v = user
      · rw [if_pos hv, hv, hposn]
        simp [hamt]
      · rw [if_neg hv]
  · intro s admin rr bm
    rcases update_pool_state_shape s admin rr bm with
      hs | ⟨pool, pool2, hpool, htot2, hmin2, hstate⟩
    · rw [hs]
      exact ⟨rfl, rfl⟩
    · rw [hstate, hpool]
      exact ⟨rfl, by simp [htot2]⟩
  · intro s admin b
    rcases set_emergency_state_shape s admin b with hs | hs
    · rw [hs]
      exact ⟨rfl, rfl⟩
    · rw [hs]
      exact ⟨rfl, rfl⟩

/-- Witness for C10 at the freshly initialized concrete state: the pool
is stored with `total_staked = 0` matching the empty position store. -/
theorem staking_conservation_witness :
    ∃ pool,
      (applyEffs State.empty
        (initializeContract State.empty 9 5 1000000000 0 100 1000000).2).pool = some pool ∧
      pool.total_staked = totalAmount (applyEffs State.empty
        (initializeContract State.empty 9 5 1000000000 0 100 1000000).2).positions ∧
      0 ≤ pool.total_staked ∧
      ((applyEffs State.empty
          (initializeContract State.empty 9 5 1000000000 0 100 1000000).2).positions = [] →
        pool.total_staked = 0) :=
  staking_conservation.1 _ (Reach.init 9 5 1000000000 0 100 1000000 rfl)

/-- Helper: a saturating `u64` subtraction, cast to `Int`, is the
`max(0, ...)` of the signed difference. -/
theorem natSub_cast (a b : Nat) : Int.ofNat (a - b) = max 0 ((a : Int) - (b : Int)) := by
  rw [Int.ofNat_eq_natCast]
  omega

/-- Helper: the `max(0, ...)` signed difference of two naturals, taken
back to `Nat`, is the saturating subtraction. -/
theorem toNat_max_sub (a b : Nat) : (max 0 ((a : Int) - (b : Int))).toNat = a - b := by
  omega

/-- The reference reward result, written from the spec's formulas:
`elapsed_since_claim = max(0, now - last_reward_time)` and
`total_staked_time = max(0, now - start_time)` as saturating signed
differences; `base_rewards = reward_rate * amount * elapsed / 1e9` with
each multiplication checked (overflow is a fatal abort, `none`);
`bonus_rewards = base * (multiplier - 100) / 100`;
`total_rewards = base + bonus`; vesting release per the cliff + linear
schedule with `periods_completed = total_staked_time /
vesting_period_duration` (intended only for `vesting_period_duration >
0`); and `claimable_amount = vesting_amount`.  All divisions truncate
(`Int.tdiv`). -/
def calcRewardsRef (position : StakingPosition) (pool : StakingPool)
    (now : Nat) : Option RewardCalculation := do
  let elapsed_since_claim : Int := max 0 ((now : Int) - (position.last_reward_time : Int))
  let total_staked_time : Int := max 0 ((now : Int) - (position.start_time : Int))
  let m1 ← checked_mul pool.reward_rate position.amount
  let m2 ← checked_mul m1 elapsed_since_claim
  let base_rewards := Int.tdiv m2 1000000000
  let m3 ← checked_mul base_rewards (Int.ofNat position.reward_multiplier - 100)
  let bonus_rewards := Int.tdiv m3 100
  let total_rewards ← checked_add base_rewards bonus_rewards
  let vesting_amount ←
    if position.has_vesting then do
      let periods_completed := total_staked_time.toNat / position.vesting_period_duration
      if periods_completed ≥ position.vesting_total_periods then
        pure total_rewards
      else do
        let cliff_amount ←
          if periods_completed = 0 then
            pure (0 : Int)
          else do
            let c ← checked_mul total_rewards (Int.ofNat position.vesting_cliff_percentage)
            pure (Int.tdiv c 10000)
        let v ← checked_mul total_rewards
          (Int.ofNat (min periods_completed position.vesting_total_periods))
        pure (max cliff_amount (Int.tdiv v (Int.ofNat position.vesting_total_periods)))
    else
      pure total_rewards
  pure { base_rewards := base_rewards, bonus_rewards := bonus_rewards,
         total_rewards := total_rewards, vesting_amount := vesting_amount,
         claimable_amount := vesting_amount }

/-- Claim C1: under the precondition that vesting, when enabled, has
`vesting_period_duration > 0`, `calculate_rewards` returns exactly the
reference result `calcRewardsRef` — same base, bonus, total, vesting and
claimable amounts, and a fatal abort on exactly the same overflow
inputs. -/
theorem calculate_rewards_matches_ref (position : StakingPosition)
    (pool : StakingPool) (now : Nat)
    (hpre : position.has_vesting = true → 0 < position.vesting_period_duration) :
    calculate_rewards position pool now = calcRewardsRef position pool now := by
  simp only [calculate_rewards, calcRewardsRef, natSub_cast, toNat_max_sub]
  by_cases hv : position.has_vesting
  · have hd : ¬ position.vesting_period_duration = 0 := Nat.pos_iff_ne_zero.mp (hpre hv)
    simp [hv, hd]
  · simp [hv]

/-- Witness for C1 on a concrete vesting position (duration `648000 >
0`) and on `pos30` without vesting. -/
theorem calculate_rewards_matches_ref_witness :
    calculate_rewards posVest pool0 648000 = calcRewardsRef posVest pool0 648000 ∧
    calculate_rewards pos30 pool0 1000 = calcRewardsRef pos30 pool0 1000 :=
  ⟨calculate_rewards_matches_ref posVest pool0 648000 (fun _ => by decide),
   calculate_rewards_matches_ref pos30 pool0 1000 (fun h => by simp [pos30] at h)⟩
